import Mathlib

/-!
Verification of the sound-behavior core of `py_soundboard`
(`src/soundboard/sounds.py`): the Sound state machine, its selection
signals, the variant overrides (List, Wrapped, Vox, ZTM), and the
button-combination dispatcher `SoundSet`.

The embedding is shallow: Python objects become Lean structures, the
class-based virtual dispatch of the signal methods becomes a record of
signal functions (`SoundClass`) carried by each `Sound`, and the
overridden `play` of `VoxSound` is selected by a `PlayImpl` tag.
Playback side effects (calls to `Chunk.play`) are returned as explicit
event lists.  Fallible code (an unhandled Python exception, e.g. the
`StopIteration` of `_obtain_chunk` or an index error inside a signal)
is modelled as `Option`/`none`.
-/

namespace PySoundboard

/-- An opaque playable audio chunk produced by the mixer collaborator
(`SDLMixer.read`).  Chunks are compared by identity in Python (distinct
`read` calls give distinct objects); we model identity as a `Nat` id. -/
structure Chunk where
  id : Nat
deriving DecidableEq

/-- Modelled from the spec: the `sound_state` named tuple of
`soundboard/types.py` (a file of this repository not present under
`src/`); per §3 of the spec it is the pair `{currentChunk, position}`,
and `sounds.py` constructs it as `sound_state(chunk, position)`. -/
structure SoundState where
  chunk : Option Chunk
  position : Option Nat
deriving DecidableEq

/-- The three overridable selection signals of a Sound class, i.e. the
virtual-method table for `on_start` / `on_next` / `on_end`. -/
structure SoundClass where
  on_start : List Chunk → SoundState → Option Chunk
  on_next : List Chunk → SoundState → Option Chunk
  on_end : List Chunk → SoundState → Option Chunk

/-- Which `play` implementation a variant uses: the base `Sound.play`
(single-chunk selection) or the `VoxSound.play` override, which runs
`play_all` instead. -/
inductive PlayImpl
  | base
  | voxAll
deriving DecidableEq

/-- A `Sound` instance: its class (signal table and play override), the
chunk sequence loaded by `setup`, the mutable `current_chunk` and
`running` fields, and `duration_scale`. -/
structure Sound where
  cls : SoundClass
  playImpl : PlayImpl
  chunks : List Chunk
  current_chunk : Option Chunk
  running : Bool
  duration_scale : Rat

/-- A freshly constructed `Sound` (per `Sound.__init__`):
`current_chunk` is `None` and the class attribute `running` is `False`. -/
def Sound.mk0 (cls : SoundClass) (pi : PlayImpl) (chunks : List Chunk)
    (duration_scale : Rat) : Sound :=
  ⟨cls, pi, chunks, none, false, duration_scale⟩

/-- `os.path.join(dir, p)` for the cases that occur here: an absolute
second component wins, otherwise the components are joined with `/`. -/
def os_path_join (dir p : String) : String :=
  if p.startsWith "/" then p
  else if dir = "" then p
  else dir ++ "/" ++ p

/-- `Sound.setup(paths, duration_scale)`: joins every path onto the base
directory and reads one chunk per path.  `read` stands for the
`mixer.read` collaborator.  Note there is no emptiness check. -/
def Sound.setup (s : Sound) (read : String → Chunk) (dir : String)
    (paths : List String) (duration_scale : Rat) : Sound :=
  { s with
    duration_scale := duration_scale
    chunks := paths.map (fun p => read (os_path_join dir p)) }

/-- Default `Sound.on_start`: `chunks[state.position if state.position
else 0]` — a `None` or `0` (falsy) position selects index 0.  An
out-of-range index (Python `IndexError`) is `none`. -/
def Sound.on_start (chunks : List Chunk) (st : SoundState) : Option Chunk :=
  chunks.get? (match st.position with
    | some p => if p = 0 then 0 else p
    | none => 0)

/-- Default `Sound.on_next`: `chunks[(state.position + 1) % len(chunks)]`.
A `None` position (Python `TypeError`) or an empty list (Python
`ZeroDivisionError`) is `none`. -/
def Sound.on_next (chunks : List Chunk) (st : SoundState) : Option Chunk :=
  match st.position with
  | some p => chunks.get? ((p + 1) % chunks.length)
  | none => none

/-- Default `Sound.on_end`: always `None`. -/
def Sound.on_end (_chunks : List Chunk) (_st : SoundState) : Option Chunk :=
  none

/-- The signal table of the base `Sound` class. -/
def Sound.baseClass : SoundClass :=
  ⟨Sound.on_start, Sound.on_next, Sound.on_end⟩

/-- `Sound._get_state()`: the position is recovered by searching for
`current_chunk` in `chunks` (`self.chunks.index(chunk) if chunk in
self.chunks else None`). -/
def Sound.get_state (s : Sound) : SoundState :=
  let chunk := s.current_chunk
  let position :=
    match chunk with
    | some c => if c ∈ s.chunks then some (s.chunks.indexOf c) else none
    | none => none
  ⟨chunk, position⟩

/-- `Sound.signal(name)`: dispatches `getattr(self, 'on_' + name)` on the
current state.  An unknown name (Python `AttributeError`) is `none`. -/
def Sound.signal (s : Sound) (name : String) : Option Chunk :=
  let st := s.get_state
  if name = "start" then s.cls.on_start s.chunks st
  else if name = "next" then s.cls.on_next s.chunks st
  else if name = "end" then s.cls.on_end s.chunks st
  else none

/-- `Sound._obtain_chunk()`: `signals = ['start', 'next'][1 if
self.running else 0:]`, then the first signal yielding a (truthy) chunk;
if none does, Python raises `StopIteration`, modelled as `none`. -/
def Sound.obtain_chunk (s : Sound) : Option Chunk :=
  let signals := ["start", "next"].drop (if s.running then 1 else 0)
  signals.findSome? s.signal

/-- `Sound.play()`: the obtained chunk becomes `current_chunk`, its
`play(duration_scale)` is invoked (the returned event), and `running`
is set.  A failed `_obtain_chunk` leaves the state untouched (`none`). -/
def Sound.play (s : Sound) : Option (Sound × (Chunk × Rat)) :=
  match s.obtain_chunk with
  | some c =>
      some ({ s with current_chunk := some c, running := true },
            (c, s.duration_scale))
  | none => none

/-- `Sound.play_all()`: every chunk is played in sequence with
`duration_scale`; no field is assigned. -/
def Sound.play_all (s : Sound) : List (Chunk × Rat) :=
  s.chunks.map (fun c => (c, s.duration_scale))

/-- `Sound.end()`: sets `running = False`, evaluates the `end` signal and
plays the resulting chunk (with `chunk.play()`, no scale) when truthy.
The result pairs the new state with the optionally played chunk. -/
def Sound.end_ (s : Sound) : Sound × Option Chunk :=
  let s2 := { s with running := false }
  (s2, s2.signal "end")

/-- The two externally triggerable operations of the state machine. -/
inductive SoundOp
  | play
  | end_
deriving DecidableEq

/-- One dispatched operation on a `Sound`, keeping only the state (a
`play` whose `_obtain_chunk` raises leaves the fields unassigned). -/
def Sound.applyOp (s : Sound) : SoundOp → Sound
  | SoundOp.play =>
      match s.play with
      | some r => r.1
      | none => s
  | SoundOp.end_ => (s.end_).1

/-- A sequence of dispatched operations, oldest first. -/
def Sound.exec (s : Sound) (ops : List SoundOp) : Sound :=
  ops.foldl Sound.applyOp s

/-- `ListSound.on_start`: always `chunks[0]`. -/
def ListSound.on_start (chunks : List Chunk) (_st : SoundState) : Option Chunk :=
  chunks.get? 0

/-- The `ListSound` signal table (`on_next`/`on_end` inherited). -/
def ListSound.cls : SoundClass :=
  ⟨ListSound.on_start, Sound.on_next, Sound.on_end⟩

/-- `WrappedSound.on_next`: `top = len(chunks) - 1;
pos = max(1, (state.position + 1) % top); return chunks[pos]`. -/
def WrappedSound.on_next (chunks : List Chunk) (st : SoundState) : Option Chunk :=
  match st.position with
  | some p =>
      let top := chunks.length - 1
      chunks.get? (max 1 ((p + 1) % top))
  | none => none

/-- `WrappedSound.on_start`: always `chunks[0]`. -/
def WrappedSound.on_start (chunks : List Chunk) (_st : SoundState) : Option Chunk :=
  chunks.get? 0

/-- `WrappedSound.on_end`: always `chunks[-1]`. -/
def WrappedSound.on_end (chunks : List Chunk) (_st : SoundState) : Option Chunk :=
  chunks.getLast?

/-- The `WrappedSound` signal table. -/
def WrappedSound.cls : SoundClass :=
  ⟨WrappedSound.on_start, WrappedSound.on_next, WrappedSound.on_end⟩

/-- `VoxSound.play()`: `super().play_all()` — plays every chunk and
assigns no field of the sound. -/
def VoxSound.play (s : Sound) : Sound × List (Chunk × Rat) :=
  (s, s.play_all)

/-- The virtual `sound.play()` call made by the dispatcher: the base
implementation emits one event (and can fail), the Vox override emits
the whole sequence and never fails. -/
def Sound.dispatchPlay (s : Sound) : Option (Sound × List (Chunk × Rat)) :=
  match s.playImpl with
  | PlayImpl.base => s.play.map (fun r => (r.1, [r.2]))
  | PlayImpl.voxAll => some (VoxSound.play s)

/-- The button-combination dispatcher `SoundSet`: a mapping from frozen
button sets to sounds (`self.sounds`), modelled as an association list
whose keys are `Finset β` (a Python `frozenset` compares by membership). -/
structure SoundSet (β : Type) where
  sounds : List (Finset β × Sound)

/-- `SoundSet.play(buttons)`: returns early on an empty press, freezes
the pressed buttons, looks up an exact key and, when one is found, calls
the sound's (virtual) `play`, storing the mutated sound back.  `none`
models an exception escaping from the sound's `play`. -/
def SoundSet.play {β : Type} [DecidableEq β] (ss : SoundSet β)
    (buttons : List β) : Option (SoundSet β × List (Chunk × Rat)) :=
  if buttons.isEmpty then some (ss, [])
  else
    let key : Finset β := buttons.toFinset
    match ss.sounds.find? (fun e => e.1 = key) with
    | none => some (ss, [])
    | some e =>
        match e.2.dispatchPlay with
        | none => none
        | some r =>
            some (⟨ss.sounds.map (fun e2 => if e2.1 = key then (e2.1, r.1) else e2)⟩,
                  r.2)

/-- One iteration of the loop in `SoundSet.stop`: when
`released_buttons & buttons` is truthy (non-empty intersection) and the
sound is running, `sound.end()` is called.  The result is the updated
entry together with `some played?` when `end` was called (`none` when
it was not). -/
def stopEntry {β : Type} [DecidableEq β] (released : Finset β)
    (e : Finset β × Sound) : (Finset β × Sound) × Option (Option Chunk) :=
  if (released ∩ e.1).Nonempty ∧ e.2.running = true then
    ((e.1, (e.2.end_).1), some (e.2.end_).2)
  else (e, none)

/-- `SoundSet.stop(released_buttons)`: the loop over all registered
`(buttons, sound)` entries. -/
def SoundSet.stop {β : Type} [DecidableEq β] (ss : SoundSet β)
    (released : Finset β) : List ((Finset β × Sound) × Option (Option Chunk)) :=
  ss.sounds.map (stopEntry released)

/-- The character class `[0-9]` of the Python regexes: code points 48
to 57. -/
def isPyDigit (c : Char) : Bool :=
  48 ≤ c.toNat && c.toNat ≤ 57

/-- A full-input match of `p{lo,hi}` for a character class `p`: between
`lo` and `hi` characters, all satisfying `p`.  Both ends anchored. -/
def matchRep (p : Char → Bool) : Nat → Nat → List Char → Bool
  | lo, _, [] => lo == 0
  | lo, hi, c :: cs => decide (0 < hi) && p c && matchRep p (lo - 1) (hi - 1) cs

/-- A full-input match of `p+` for a character class `p`: one or more
characters, all satisfying `p`. -/
def matchPlus (p : Char → Bool) : List Char → Bool
  | [] => false
  | c :: cs => p c && (cs.isEmpty || matchPlus p cs)

/-- A full-input match of the regex `m[0-9]+`. -/
def matchMetro : List Char → Bool
  | [] => false
  | c :: cs => c == 'm' && matchPlus isPyDigit cs

/-- Python `re.match` of a pattern anchored as `^...$`: `$` matches at
the very end of the string or just before one final newline. -/
def pyAnchored (m : List Char → Bool) (s : List Char) : Bool :=
  m s || (decide (s.getLast? = some '\n') && m s.dropLast)

/-- `ZTMSound._line_humanize(line)`: the regex cascade of the Transit
variant, including the code's literal output strings.  `line.lower()`
is `Char.toLower` character-wise (the identifiers are ASCII). -/
def ZTMSound.line_humanize (line : String) : String :=
  if pyAnchored (matchRep isPyDigit 1 2) line.data then
    "topside train number " ++ line
  else if pyAnchored (matchRep isPyDigit 3 3) line.data then
    "day bust number " ++ line
  else if pyAnchored matchMetro (line.data.map Char.toLower) then
    "subsurface train"
  else
    "transportation"

/-- `re.sub(r'minute[^s]', 'minutes', s)`: a left-to-right scan; at each
position, `minute` followed by one character other than `s` is replaced
(the following character is part of the match, hence consumed), the scan
resuming after the match; otherwise the scan advances one character.
`fuel` bounds the recursion; one unit per consumed character, so
`s.length` suffices. -/
def minuteSubF : Nat → List Char → List Char
  | 0, l => l
  | fuel + 1, 'm' :: 'i' :: 'n' :: 'u' :: 't' :: 'e' :: c :: rest =>
      if c = 's' then
        'm' :: minuteSubF fuel ('i' :: 'n' :: 'u' :: 't' :: 'e' :: 's' :: rest)
      else
        'm' :: 'i' :: 'n' :: 'u' :: 't' :: 'e' :: 's' :: minuteSubF fuel rest
  | fuel + 1, c :: rest => c :: minuteSubF fuel rest
  | _ + 1, [] => []

/-- The `minute` → `minutes` fixup of `ZTMSound.play`, as a function on
the humanized phrase. -/
def ZTMSound.minute_fixup (s : String) : String :=
  ⟨minuteSubF s.data.length s.data⟩

/-- The chunk a `Sound.play()` call would hand to the engine. -/
def Sound.playedChunk (s : Sound) : Option Chunk :=
  s.play.map (fun r => r.2.1)

/-- Fixture: a one-chunk base-class sound, as built by `SimpleSound`. -/
def simple1 : Sound :=
  Sound.mk0 Sound.baseClass PlayImpl.base [⟨5⟩] 1

/-- Fixture: the chunk sequence `[s, m1, m2, e]` of the Wrapped
scenario, as chunk ids `0..3`. -/
def wchunks : List Chunk :=
  [⟨0⟩, ⟨1⟩, ⟨2⟩, ⟨3⟩]

/-- Fixture: a freshly set-up `WrappedSound` over `wchunks`. -/
def wrapped4 : Sound :=
  Sound.mk0 WrappedSound.cls PlayImpl.base wchunks 1

/-- Fixture: a base-class sound that has already been started (its
`current_chunk` points at its only chunk and `running` is true). -/
def runningSound : Sound :=
  { Sound.mk0 Sound.baseClass PlayImpl.base [⟨7⟩] 1 with
    current_chunk := some ⟨7⟩, running := true }

/-- Fixture: a dispatcher mapping the combo `{0, 1}` to `runningSound`. -/
def demoSet : SoundSet Nat :=
  ⟨[({0, 1}, runningSound)]⟩

/-- Fixture: a freshly constructed one-chunk base-class sound, never
played. -/
def fresh1 : Sound :=
  Sound.mk0 Sound.baseClass PlayImpl.base [⟨4⟩] 1

/-- Fixture: a freshly constructed `WrappedSound` with two chunks,
never played. -/
def freshWrapped2 : Sound :=
  Sound.mk0 WrappedSound.cls PlayImpl.base [⟨0⟩, ⟨1⟩] 1

/-- Fixture: the result of running `setup` with an empty path list. -/
def emptySetupSound : Sound :=
  (Sound.mk0 Sound.baseClass PlayImpl.base [] 1).setup (fun _ => ⟨0⟩) "" [] 1

/-- Fixture: a `VoxSound` with two word chunks (duration scale 1.4, the
`vox_duration_scale` of the source). -/
def voxDemo : Sound :=
  Sound.mk0 Sound.baseClass PlayImpl.voxAll [⟨8⟩, ⟨9⟩] (7 / 5)

/-- Fixture: a dispatcher mapping the combo `{2}` to `voxDemo`. -/
def voxSet : SoundSet Nat :=
  ⟨[({2}, voxDemo)]⟩

/-! ### Helper lemmas about the regex matchers -/

theorem matchRep_cons (p : Char → Bool) (lo hi : Nat) (c : Char)
    (cs : List Char) :
    matchRep p lo hi (c :: cs) =
      (decide (0 < hi) && p c && matchRep p (lo - 1) (hi - 1) cs) :=
  rfl

theorem matchRep_eq_true (p : Char → Bool) (lo hi : Nat) (s : List Char) :
    matchRep p lo hi s = true ↔
      (s.all p = true ∧ lo ≤ s.length ∧ s.length ≤ hi) := by
  induction s generalizing lo hi with
  | nil =>
      show (lo == 0) = true ↔ _
      simp only [beq_iff_eq, List.all_nil, List.length_nil, true_and]
      omega
  | cons c cs ih =>
      rw [matchRep_cons]
      simp only [Bool.and_eq_true, decide_eq_true_eq, List.all_cons,
        List.length_cons, ih]
      constructor
      · rintro ⟨⟨h1, h2⟩, h3, h4, h5⟩
        exact ⟨⟨h2, h3⟩, by omega, by omega⟩
      · rintro ⟨⟨h2, h3⟩, h4, h5⟩
        exact ⟨⟨by omega, h2⟩, h3, by omega, by omega⟩

theorem matchPlus_eq (p : Char → Bool) (s : List Char) :
    matchPlus p s = (!s.isEmpty && s.all p) := by
  induction s with
  | nil => rfl
  | cons c cs ih =>
      show (p c && (cs.isEmpty || matchPlus p cs)) = _
      rw [ih]
      cases cs with
      | nil => simp
      | cons d ds => cases hp : p c <;> simp [hp, List.all_cons]

theorem matchPlus_eq_true (p : Char → Bool) (s : List Char) :
    matchPlus p s = true ↔ (s ≠ [] ∧ s.all p = true) := by
  rw [matchPlus_eq]
  cases s <;> simp

theorem matchMetro_eq_true (s : List Char) :
    matchMetro s = true ↔
      ∃ cs, s = 'm' :: cs ∧ cs ≠ [] ∧ cs.all isPyDigit = true := by
  cases s with
  | nil => simp [matchMetro]
  | cons c cs =>
      show (c == 'm' && matchPlus isPyDigit cs) = true ↔ _
      simp only [Bool.and_eq_true, beq_iff_eq, matchPlus_eq_true,
        List.cons.injEq]
      constructor
      · rintro ⟨rfl, h1, h2⟩
        exact ⟨cs, ⟨rfl, rfl⟩, h1, h2⟩
      · rintro ⟨cs2, ⟨rfl, rfl⟩, h1, h2⟩
        exact ⟨rfl, h1, h2⟩

theorem isPyDigit_bounds (c : Char) (h : isPyDigit c = true) :
    48 ≤ c.toNat ∧ c.toNat ≤ 57 := by
  simpa [isPyDigit] using h

theorem char_toNat_ofNat_valid (n : Nat) (h : n < 55296) :
    (Char.ofNat n).toNat = n := by
  rw [Char.ofNat, dif_pos (Or.inl h)]
  rfl

theorem toLower_digit (c : Char) (h : isPyDigit c = true) :
    Char.toLower c = c := by
  have hb := isPyDigit_bounds c h
  rw [Char.toLower, if_neg (by omega)]

theorem toLower_ne_newline (c : Char) (h : c ≠ '\n') :
    Char.toLower c ≠ '\n' := by
  rw [Char.toLower]
  by_cases hcase : c.toNat ≥ 65 ∧ c.toNat ≤ 90
  · rw [if_pos hcase]
    intro hEq
    have h2 : (Char.ofNat (c.toNat + 32)).toNat = c.toNat + 32 :=
      char_toNat_ofNat_valid _ (by omega)
    rw [hEq] at h2
    have h3 : ('\n').toNat = 10 := rfl
    omega
  · rw [if_neg hcase]
    exact h

theorem map_toLower_digits (cs : List Char) (h : cs.all isPyDigit = true) :
    cs.map Char.toLower = cs := by
  induction cs with
  | nil => rfl
  | cons c cs ih =>
      simp only [List.all_cons, Bool.and_eq_true] at h
      simp [toLower_digit c h.1, ih h.2]

theorem pyAnchored_of_no_newline (m : List Char → Bool) (s : List Char)
    (h : '\n' ∉ s) : pyAnchored m s = m s := by
  unfold pyAnchored
  cases hl : s.getLast? with
  | none => simp
  | some c =>
      have hc : c ≠ '\n' := by
        intro hEq
        subst hEq
        have hmem : '\n' ∈ s.getLast? := by simp [Option.mem_def, hl]
        rcases List.mem_getLast?_eq_getLast hmem with ⟨hne, hEq2⟩
        exact h (hEq2 ▸ List.getLast_mem hne)
      simp [hc]

/-! ### Claim theorems -/

/-- C8 (counterexample): the line humanization is not scoped to exactly
2-digit lines — the single-digit line `7` is also announced as a topside
train, not as generic transportation — and a 3-digit line is announced
with the code's literal string `day bust number N`, not
`day bus number N`. -/
theorem ztm_line_humanize_counterexample :
    ZTMSound.line_humanize "7" = "topside train number 7" ∧
    ZTMSound.line_humanize "7" ≠ "transportation" ∧
    ZTMSound.line_humanize "123" = "day bust number 123" ∧
    ZTMSound.line_humanize "123" ≠ "day bus number 123" := by
  decide

/-- C8 (amended): for every newline-free line identifier,
`_line_humanize` yields `topside train number N` exactly for lines of
one or two digits, `day bust number N` (sic) exactly for lines of three
digits, `subsurface train` for `m`/`M` followed by one or more digits,
and `transportation` otherwise. -/
theorem ztm_line_humanize_cases (line : String) (hnl : '\n' ∉ line.data) :
    ((line.data.all isPyDigit = true ∧ 1 ≤ line.data.length ∧
        line.data.length ≤ 2) →
      ZTMSound.line_humanize line = "topside train number " ++ line) ∧
    ((line.data.all isPyDigit = true ∧ line.data.length = 3) →
      ZTMSound.line_humanize line = "day bust number " ++ line) ∧
    (∀ c cs, line.data = c :: cs → (c = 'm' ∨ c = 'M') → cs ≠ [] →
      cs.all isPyDigit = true →
      ZTMSound.line_humanize line = "subsurface train") ∧
    (¬ (line.data.all isPyDigit = true ∧ 1 ≤ line.data.length ∧
          line.data.length ≤ 2) →
     ¬ (line.data.all isPyDigit = true ∧ line.data.length = 3) →
     ¬ (∃ cs, line.data.map Char.toLower = 'm' :: cs ∧ cs ≠ [] ∧
          cs.all isPyDigit = true) →
      ZTMSound.line_humanize line = "transportation") := by
  refine ⟨?_, ?_, ?_, ?_⟩
  · intro h
    have h1 : pyAnchored (matchRep isPyDigit 1 2) line.data = true := by
      rw [pyAnchored_of_no_newline _ _ hnl]
      exact (matchRep_eq_true _ _ _ _).mpr ⟨h.1, h.2.1, h.2.2⟩
    simp [ZTMSound.line_humanize, h1]
  · intro h
    obtain ⟨hA3, hlen3⟩ := h
    have h1 : pyAnchored (matchRep isPyDigit 1 2) line.data = false := by
      rw [pyAnchored_of_no_newline _ _ hnl, Bool.eq_false_iff]
      intro hT
      rcases (matchRep_eq_true _ _ _ _).mp hT with ⟨-, -, hle⟩
      omega
    have h2 : pyAnchored (matchRep isPyDigit 3 3) line.data = true := by
      rw [pyAnchored_of_no_newline _ _ hnl]
      exact (matchRep_eq_true _ _ _ _).mpr ⟨hA3, by omega, by omega⟩
    simp [ZTMSound.line_humanize, h1, h2]
  · intro c cs hdata hcm hne hall
    have hdig : isPyDigit c = false := by
      rcases hcm with rfl | rfl <;> decide
    have hallfalse : line.data.all isPyDigit = false := by
      rw [hdata, List.all_cons, hdig, Bool.false_and]
    have h1 : pyAnchored (matchRep isPyDigit 1 2) line.data = false := by
      rw [pyAnchored_of_no_newline _ _ hnl, Bool.eq_false_iff]
      intro hT
      rcases (matchRep_eq_true _ _ _ _).mp hT with ⟨hA, -, -⟩
      rw [hallfalse] at hA
      exact absurd hA (by simp)
    have h2 : pyAnchored (matchRep isPyDigit 3 3) line.data = false := by
      rw [pyAnchored_of_no_newline _ _ hnl, Bool.eq_false_iff]
      intro hT
      rcases (matchRep_eq_true _ _ _ _).mp hT with ⟨hA, -, -⟩
      rw [hallfalse] at hA
      exact absurd hA (by simp)
    have hmap : line.data.map Char.toLower = 'm' :: cs := by
      rw [hdata, List.map_cons, map_toLower_digits cs hall]
      rcases hcm with rfl | rfl <;> rfl
    have h3 : pyAnchored matchMetro (line.data.map Char.toLower) = true := by
      have hm : matchMetro (line.data.map Char.toLower) = true := by
        rw [hmap]
        exact (matchMetro_eq_true _).mpr ⟨cs, rfl, hne, hall⟩
      unfold pyAnchored
      rw [hm, Bool.true_or]
    simp [ZTMSound.line_humanize, h1, h2, h3]
  · intro hno12 hno3 hnometro
    have h1 : pyAnchored (matchRep isPyDigit 1 2) line.data = false := by
      rw [pyAnchored_of_no_newline _ _ hnl, Bool.eq_false_iff]
      intro hT
      exact hno12 ((matchRep_eq_true _ _ _ _).mp hT)
    have h2 : pyAnchored (matchRep isPyDigit 3 3) line.data = false := by
      rw [pyAnchored_of_no_newline _ _ hnl, Bool.eq_false_iff]
      intro hT
      rcases (matchRep_eq_true _ _ _ _).mp hT with ⟨hA, hge, hle⟩
      exact hno3 ⟨hA, by omega⟩
    have hnl2 : '\n' ∉ line.data.map Char.toLower := by
      intro hmem
      rcases List.mem_map.mp hmem with ⟨d, hd, hEq⟩
      exact toLower_ne_newline d (fun hEq2 => hnl (hEq2 ▸ hd)) hEq
    have h3 : pyAnchored matchMetro (line.data.map Char.toLower) = false := by
      rw [pyAnchored_of_no_newline _ _ hnl2, Bool.eq_false_iff]
      intro hT
      exact hnometro ((matchMetro_eq_true _).mp hT)
    simp [ZTMSound.line_humanize, h1, h2, h3]

/-- C8 (witness): the metro line `m5` is announced as a subsurface
train. -/
theorem ztm_line_humanize_cases_witness :
    ZTMSound.line_humanize "m5" = "subsurface train" :=
  (ztm_line_humanize_cases "m5" (by decide)).2.2.1 'm' ['5'] (by decide)
    (Or.inl rfl) (by decide) (by decide)

/-- C9: the `minute[^s]` fixup does not normalize a singular `minute` at
the end of the humanized phrase (no following character, so the regex
cannot match), and where it does match it also deletes the character
following `minute`, so the surrounding text is altered:
`a minute ago` becomes `a minutesago`, not `a minutes ago`. -/
theorem ztm_minute_fixup_divergence :
    ZTMSound.minute_fixup "in a minute" = "in a minute" ∧
    ZTMSound.minute_fixup "a minute ago" = "a minutesago" ∧
    "a minutesago" ≠ "a minutes ago" ∧
    ZTMSound.minute_fixup "in 7 minutes" = "in 7 minutes" := by
  decide

/-- C1: `play()` evaluates `start` then `next` when the sound is not
running (consulting `next` only when `start` yields nothing), and only
`next` when it is running; the first chunk so obtained becomes
`current_chunk`, is played with `duration_scale`, and `running` is set
to true.  When running and `next` yields nothing, nothing is selected
(regardless of what `start` would say). -/
theorem sound_play_signal_chain (s : Sound) (c : Chunk)
    (hne : s.chunks ≠ []) :
    (s.running = false → s.signal "start" = some c →
      s.play = some ({ s with current_chunk := some c, running := true },
        (c, s.duration_scale))) ∧
    (s.running = false → s.signal "start" = none → s.signal "next" = some c →
      s.play = some ({ s with current_chunk := some c, running := true },
        (c, s.duration_scale))) ∧
    (s.running = true → s.signal "next" = some c →
      s.play = some ({ s with current_chunk := some c, running := true },
        (c, s.duration_scale))) ∧
    (s.running = true → s.signal "next" = none → s.play = none) := by
  refine ⟨?_, ?_, ?_, ?_⟩
  · intro hrun hsig
    simp [Sound.play, Sound.obtain_chunk, hrun, List.findSome?_cons, hsig]
  · intro hrun hsig1 hsig2
    simp [Sound.play, Sound.obtain_chunk, hrun, List.findSome?_cons,
      hsig1, hsig2]
  · intro hrun hsig
    simp [Sound.play, Sound.obtain_chunk, hrun, List.findSome?_cons, hsig]
  · intro hrun hsig
    simp [Sound.play, Sound.obtain_chunk, hrun, List.findSome?_cons, hsig]

/-- C1 (witness): a fresh one-chunk sound selects its chunk through the
`start` signal. -/
theorem sound_play_signal_chain_witness :
    simple1.play =
      some ({ simple1 with current_chunk := some ⟨5⟩, running := true },
        (⟨5⟩, simple1.duration_scale)) :=
  (sound_play_signal_chain simple1 ⟨5⟩ (by decide)).1 rfl (by decide)

/-- C2: the Wrapped scenario `[s, m1, m2, e]` (ids 0..3): the first
`play()` selects chunk 0; re-triggering while running cycles 1, 2, 1,
2, …; `end()` plays the last chunk 3 and clears `running`; a `play()`
after `end()` selects chunk 0 again; and on this sequence the Wrapped
`on_next` always lands on an index between 1 and `len - 2`. -/
theorem wrapped_scenario_trace :
    wrapped4.playedChunk = some ⟨0⟩ ∧
    (wrapped4.applyOp SoundOp.play).playedChunk = some ⟨1⟩ ∧
    ((wrapped4.applyOp SoundOp.play).applyOp SoundOp.play).playedChunk =
      some ⟨2⟩ ∧
    (((wrapped4.applyOp SoundOp.play).applyOp SoundOp.play).applyOp
        SoundOp.play).playedChunk = some ⟨1⟩ ∧
    ((((wrapped4.applyOp SoundOp.play).applyOp SoundOp.play).applyOp
        SoundOp.play).applyOp SoundOp.play).playedChunk = some ⟨2⟩ ∧
    (((wrapped4.applyOp SoundOp.play).applyOp SoundOp.play).end_).2 =
      some ⟨3⟩ ∧
    ((((wrapped4.applyOp SoundOp.play).applyOp SoundOp.play).end_).1).running
      = false ∧
    (((((wrapped4.applyOp SoundOp.play).applyOp
        SoundOp.play).end_).1)).playedChunk = some ⟨0⟩ ∧
    (∀ (ch : Option Chunk) (p : Nat), ∃ i,
      WrappedSound.on_next wchunks ⟨ch, some p⟩ = wchunks.get? i ∧
      1 ≤ i ∧ i ≤ wchunks.length - 2) := by
  refine ⟨by decide, by decide, by decide, by decide, by decide, by decide,
    by decide, by decide, ?_⟩
  intro ch p
  refine ⟨max 1 ((p + 1) % 3), ?_, ?_, ?_⟩
  · rfl
  · omega
  · have hlt : (p + 1) % 3 < 3 := Nat.mod_lt _ (by omega)
    have hlen : wchunks.length = 4 := rfl
    omega

/-- C5 (counterexample): `setup` with an empty path list succeeds and
produces a Sound whose `chunks` is empty — the invariant `1 ≤ length`
is not established at setup. -/
theorem sound_setup_empty_counterexample :
    emptySetupSound.chunks.length = 0 ∧
    ¬ (1 ≤ emptySetupSound.chunks.length) := by
  decide

/-- C5 (amended): `setup` performs no emptiness check: it loads exactly
one chunk per input path, so the resulting `chunks` length equals the
input length (zero for an empty input). -/
theorem sound_setup_length (s : Sound) (read : String → Chunk)
    (dir : String) (paths : List String) (dsc : Rat) :
    (s.setup read dir paths dsc).chunks.length = paths.length := by
  simp [Sound.setup]

/-- C6: starting from construction, `running` stays false across any
sequence of operations containing no `play`; a completed `play` sets it
true; a `play` whose chunk selection fails leaves it false; once true it
survives further `play`s; and only `end()` resets it to false. -/
theorem sound_running_lifecycle (cls : SoundClass) (pi : PlayImpl)
    (chunks : List Chunk) (dsc : Rat) (ops : List SoundOp) :
    ((∀ op ∈ ops, op ≠ SoundOp.play) →
      ((Sound.mk0 cls pi chunks dsc).exec ops).running = false) ∧
    (∀ t : Sound, t.running = true → (t.applyOp SoundOp.play).running = true) ∧
    (∀ (t t2 : Sound) (ev : Chunk × Rat), t.play = some (t2, ev) →
      t2.running = true) ∧
    (∀ t : Sound, t.running = false → t.play = none →
      (t.applyOp SoundOp.play).running = false) ∧
    (∀ t : Sound, ((t.end_).1).running = false) := by
  have hplay : ∀ (t t2 : Sound) (ev : Chunk × Rat), t.play = some (t2, ev) →
      t2.running = true := by
    intro t t2 ev h
    unfold Sound.play at h
    cases hobt : t.obtain_chunk with
    | none => rw [hobt] at h; exact absurd h (by simp)
    | some c =>
        rw [hobt] at h
        simp only [Option.some.injEq, Prod.mk.injEq] at h
        rw [← h.1]
  have hkeep : ∀ t : Sound, t.running = true →
      (t.applyOp SoundOp.play).running = true := by
    intro t ht
    simp only [Sound.applyOp]
    cases hp : t.play with
    | none => exact ht
    | some r => exact hplay t r.1 r.2 (by rw [hp])
  have hexec : ∀ (t : Sound) (l : List SoundOp), t.running = false →
      (∀ op ∈ l, op ≠ SoundOp.play) → (t.exec l).running = false := by
    intro t l
    induction l generalizing t with
    | nil => intro ht _; exact ht
    | cons op rest ih =>
        intro ht hops
        cases op with
        | play => exact absurd rfl (hops SoundOp.play (by simp))
        | end_ =>
            have : (t.applyOp SoundOp.end_).running = false := by
              simp [Sound.applyOp, Sound.end_]
            exact ih _ this (fun o ho => hops o (by simp [ho]))
  refine ⟨fun h => hexec _ ops rfl h, hkeep, hplay, ?_, ?_⟩
  · intro t ht hp
    simp only [Sound.applyOp, hp]
    exact ht
  · intro t
    simp [Sound.end_]

/-- C6 (witness): an `end()` on a fresh sound leaves `running` false,
and a started sound's `end()` clears it. -/
theorem sound_running_lifecycle_witness :
    ((Sound.mk0 Sound.baseClass PlayImpl.base [⟨0⟩] 1).exec
      [SoundOp.end_]).running = false ∧
    ((runningSound.end_).1).running = false := by
  have h := sound_running_lifecycle Sound.baseClass PlayImpl.base [⟨0⟩] 1
    [SoundOp.end_]
  exact ⟨h.1 (by decide), h.2.2.2.2 runningSound⟩

/-- C7 (counterexample): a never-started `WrappedSound` (its
`current_chunk` is absent) still yields a chunk from `end()` — its
overridden `on_end` unconditionally returns the last chunk. -/
theorem sound_end_before_start_counterexample :
    freshWrapped2.current_chunk = none ∧
    (freshWrapped2.end_).2 = some ⟨1⟩ ∧
    (freshWrapped2.end_).2 ≠ none := by
  decide

/-- C7 (amended): for a Sound whose `end` signal is the inherited
default `on_end`, calling `end()` before any `play()` yields no chunk
and leaves `running` false; for every Sound (Wrapped included) `end()`
leaves `running` false. -/
theorem sound_end_before_start (s : Sound)
    (hend : s.cls.on_end = Sound.on_end) (hc : s.current_chunk = none) :
    s.end_ = ({ s with running := false }, none) ∧
    ((s.end_).1).running = false := by
  constructor
  · simp [Sound.end_, Sound.signal, hend, Sound.on_end]
  · simp [Sound.end_]

/-- C7 (witness): a fresh default sound ends with no chunk played. -/
theorem sound_end_before_start_witness :
    fresh1.end_ = ({ fresh1 with running := false }, none) :=
  (sound_end_before_start fresh1 rfl rfl).1

/-- C3: `stop(released)` calls `end()` on exactly the registered
entries whose combo shares at least one button with the released set and
whose sound is running; sharing a single button suffices (no full-combo
match is required), and on such an entry the sound's `end()` is applied
and its played chunk reported. -/
theorem soundset_stop_matches {β : Type} [DecidableEq β] (ss : SoundSet β)
    (released : Finset β) (i : Nat) (combo : Finset β) (s : Sound)
    (h : ss.sounds.get? i = some (combo, s)) :
    (ss.stop released).get? i = some (stopEntry released (combo, s)) ∧
    (((stopEntry released (combo, s)).2).isSome = true ↔
      ((∃ b, b ∈ combo ∧ b ∈ released) ∧ s.running = true)) ∧
    (∀ b, b ∈ combo → b ∈ released → s.running = true →
      stopEntry released (combo, s) =
        ((combo, (s.end_).1), some (s.end_).2)) := by
  refine ⟨?_, ?_, ?_⟩
  · rw [SoundSet.stop, List.get?_map, h]
    rfl
  · unfold stopEntry
    by_cases hcond : (released ∩ combo).Nonempty ∧ s.running = true
    · rw [if_pos hcond]
      simp only [Option.isSome_some, true_iff]
      rcases hcond.1 with ⟨b, hb⟩
      rw [Finset.mem_inter] at hb
      exact ⟨⟨b, hb.2, hb.1⟩, hcond.2⟩
    · rw [if_neg hcond]
      simp only [Option.isSome_none, Bool.false_eq_true, false_iff]
      rintro ⟨⟨b, hbc, hbr⟩, hrun⟩
      exact hcond ⟨⟨b, Finset.mem_inter.mpr ⟨hbr, hbc⟩⟩, hrun⟩
  · intro b hbc hbr hrun
    have hcond : (released ∩ combo).Nonempty ∧ s.running = true :=
      ⟨⟨b, Finset.mem_inter.mpr ⟨hbr, hbc⟩⟩, hrun⟩
    rw [stopEntry, if_pos hcond]

/-- C3 (witness): releasing only button 0 of the combo `{0, 1}` ends
the running sound bound to it. -/
theorem soundset_stop_matches_witness :
    (demoSet.stop {0}).get? 0 = some (stopEntry {0} ({0, 1}, runningSound)) ∧
    stopEntry ({0} : Finset Nat) (({0, 1} : Finset Nat), runningSound) =
      (({0, 1}, (runningSound.end_).1), some (runningSound.end_).2) := by
  have h := soundset_stop_matches demoSet {0} 0 {0, 1} runningSound rfl
  exact ⟨h.1, h.2.2 0 (by decide) (by decide) rfl⟩

/-- C4: dispatch by exact combo: an empty press is a no-op; a press
whose frozen set is not a registered key (in particular a proper subset
or superset of one) is a no-op with no error; a press that matches a key
exactly runs that sound's `play`, emitting exactly its events. -/
theorem soundset_play_exact {β : Type} [DecidableEq β] (ss : SoundSet β)
    (buttons : List β) :
    (buttons = [] → ss.play buttons = some (ss, [])) ∧
    ((∀ e ∈ ss.sounds, e.1 ≠ buttons.toFinset) →
      ss.play buttons = some (ss, [])) ∧
    (∀ e ∈ ss.sounds, (e.1 ⊂ buttons.toFinset ∨ buttons.toFinset ⊂ e.1) →
      (∀ e2 ∈ ss.sounds, e2.1 ≠ buttons.toFinset) →
      ss.play buttons = some (ss, [])) ∧
    (∀ combo s, buttons ≠ [] →
      ss.sounds.find? (fun e => e.1 = buttons.toFinset) = some (combo, s) →
      ((s.dispatchPlay = none → ss.play buttons = none) ∧
       (∀ s2 evs, s.dispatchPlay = some (s2, evs) →
         ∃ ss2, ss.play buttons = some (ss2, evs)))) := by
  have hnoop : (∀ e ∈ ss.sounds, e.1 ≠ buttons.toFinset) →
      ss.play buttons = some (ss, []) := by
    intro hall
    by_cases hemp : buttons.isEmpty
    · simp [SoundSet.play, hemp]
    · have hfind : ss.sounds.find? (fun e => e.1 = buttons.toFinset) = none := by
        rw [List.find?_eq_none]
        intro e he
        simp only [decide_eq_true_eq]
        exact hall e he
      simp [SoundSet.play, hemp, hfind]
  refine ⟨?_, hnoop, fun e he hsub hall => hnoop hall, ?_⟩
  · intro hb
    subst hb
    simp [SoundSet.play]
  · intro combo s hb hfind
    have hemp : buttons.isEmpty = false := by
      cases buttons with
      | nil => exact absurd rfl hb
      | cons x xs => rfl
    constructor
    · intro hd
      simp [SoundSet.play, hemp, hfind, hd]
    · intro s2 evs hd
      refine ⟨⟨ss.sounds.map
        (fun e2 => if e2.1 = buttons.toFinset then (e2.1, s2) else e2)⟩, ?_⟩
      simp [SoundSet.play, hemp, hfind, hd]

/-- C4 (witness): an empty press and an unmapped press are both no-ops
on the demo dispatcher. -/
theorem soundset_play_exact_witness :
    SoundSet.play demoSet [] = some (demoSet, []) ∧
    SoundSet.play demoSet [5] = some (demoSet, []) :=
  ⟨(soundset_play_exact demoSet []).1 rfl,
   (soundset_play_exact demoSet [5]).2.1 (by decide)⟩

/-- C10: a Vox sound's `play` emits every chunk in order (via
`play_all`) and leaves the sound — in particular `running` and
`current_chunk` — unchanged; a never-running sound is skipped by
`stop`, so `end()` is never called on it. -/
theorem vox_play_frame (s : Sound) (h : s.playImpl = PlayImpl.voxAll) :
    s.dispatchPlay = some (s, s.play_all) ∧
    s.play_all = s.chunks.map (fun c => (c, s.duration_scale)) ∧
    (∀ {β : Type} [DecidableEq β] (ss : SoundSet β) (released : Finset β)
      (i : Nat) (combo : Finset β),
      ss.sounds.get? i = some (combo, s) → s.running = false →
      (ss.stop released).get? i = some ((combo, s), none)) := by
  refine ⟨?_, rfl, ?_⟩
  · simp [Sound.dispatchPlay, h, VoxSound.play]
  · intro β inst ss released i combo hget hrun
    have hcond : ¬ ((released ∩ combo).Nonempty ∧ s.running = true) := by
      rintro ⟨-, hr⟩
      rw [hrun] at hr
      exact absurd hr (by simp)
    have hstop : stopEntry released (combo, s) = ((combo, s), none) := by
      rw [stopEntry, if_neg hcond]
    rw [SoundSet.stop, List.get?_map, hget]
    show some (stopEntry released (combo, s)) = _
    rw [hstop]

/-- C10 (witness): the demo Vox sound plays all chunks without state
change, and releasing its combo never ends it. -/
theorem vox_play_frame_witness :
    voxDemo.dispatchPlay = some (voxDemo, voxDemo.play_all) ∧
    (voxSet.stop {2}).get? 0 = some (({2}, voxDemo), none) := by
  have h := vox_play_frame voxDemo rfl
  exact ⟨h.1, h.2.2 voxSet {2} 0 {2} rfl rfl⟩

end PySoundboard
